import Mathlib

/-!
Verification development for the `llmpc` plan-and-execute agent scripts
(`llmpc/llmpc.py`, the tagged-JSON variant v1, and `llmpc/llmpc_v2.py`, the
fenced-block variant v2).  Text is modelled as `List Char`; the workspace
directory `./files` is modelled as an association list from filename to file
content.  Fallible Python code (raised exceptions) is modelled with
`Option`/`Except`: a `none`/`.error` result stands for an exception
propagating out of the call.
-/

/-- Convert a string literal to the `List Char` representation used throughout. -/
def chars (s : String) : List Char := s.toList

/-- Test whether `pat` is an initial segment of `s` (character-wise). -/
def startsWithL : List Char → List Char → Bool
  | [], _ => true
  | _ :: _, [] => false
  | p :: ps, c :: cs => p == c && startsWithL ps cs

/-- Python's `str.isspace` characters restricted to ASCII; this is the set
removed by `str.strip()` and matched by the regex class backslash-s for the
ASCII inputs in scope. -/
def pySpace (c : Char) : Bool :=
  c == ' ' || c == '\t' || c == '\n' || c == '\r' || c == '\x0b' || c == '\x0c'

/-- Python's `str.lstrip()`: drop leading whitespace. -/
def lstripPy (s : List Char) : List Char := s.dropWhile pySpace

/-- Python's `str.rstrip()`: drop trailing whitespace. -/
def rstripPy (s : List Char) : List Char := (lstripPy s.reverse).reverse

/-- Python's `str.strip()`: drop whitespace at both ends
(`llmpc_v2.py` line 142 writes `code.strip()` to the file). -/
def stripPy (s : List Char) : List Char := rstripPy (lstripPy s)

/-- Word characters of the regex class backslash-w (ASCII scope). -/
def isWordChar (c : Char) : Bool := c.isAlpha || c.isDigit || c == '_'

/-- The backtick character, by code point. -/
def btick : Char := Char.ofNat 96

/-- A triple-backtick fence delimiter. -/
def fenceMarker : List Char := [btick, btick, btick]

/-- One fenced code block as captured by the three groups of the regex in
`llmpc_v2.py` line 134: language tag, filename, body. -/
structure Block where
  lang : List Char
  fname : List Char
  code : List Char
deriving DecidableEq

/-- Index of the first occurrence of `pat` in `s`, if any. -/
def findSubIdx (pat : List Char) : List Char → Option Nat
  | [] => if startsWithL pat [] then some 0 else none
  | s@(_ :: rest) =>
    if startsWithL pat s then some 0
    else (findSubIdx pat rest).map (fun i => i + 1)

/-- Match the tail of the fenced-block pattern, `([^\n]+)\n(.*?)` followed by
a closing fence, against `r2` (the text after the opening fence, language tag
and a candidate whitespace run).  The filename group is the maximal nonempty
run of non-newline characters; the lazy body group ends at the first later
fence occurrence.  Returns the (filename, body) groups and the text after the
closing fence. -/
def matchTail (r2 : List Char) : Option ((List Char × List Char) × List Char) :=
  let fname := r2.takeWhile (fun c => c != '\n')
  if fname.isEmpty then none
  else
    match r2.drop fname.length with
    | c :: r4 =>
      if c == '\n' then
        match findSubIdx fenceMarker r4 with
        | some i => some ((fname, r4.take i), r4.drop (i + 3))
        | none => none
      else none
    | [] => none

/-- Greedy backtracking over the length of the whitespace run after the
language tag: try the longest run first (the regex engine's greedy order for
a one-or-more whitespace group), then successively shorter nonempty runs. -/
def tryWs (r1 : List Char) : Nat → Option ((List Char × List Char) × List Char)
  | 0 => none
  | w + 1 =>
    match matchTail (r1.drop (w + 1)) with
    | some res => some res
    | none => tryWs r1 w

/-- Attempt to match the fenced-block regex of `llmpc_v2.py` line 134 at the
start of `s`: an opening fence, a nonempty greedy run of word characters (the
language tag), a nonempty whitespace run, a nonempty non-newline run (the
filename), a newline, then a lazy body up to the next fence.  Returns the
captured groups and the text after the match. -/
def matchAt (s : List Char) : Option (Block × List Char) :=
  if startsWithL fenceMarker s then
    let rest := s.drop 3
    let lang := rest.takeWhile isWordChar
    if lang.isEmpty then none
    else
      let r1 := rest.drop lang.length
      match tryWs r1 (r1.takeWhile pySpace).length with
      | some ((fn, body), after) => some (⟨lang, fn, body⟩, after)
      | none => none
  else none

/-- Scanner step of `re.finditer`: on a match, emit it and resume after the
match; otherwise advance one character.  Every step consumes at least one
character of `s` (a successful match consumes the opening fence and more), so
fuel equal to the length of the text is always sufficient. -/
def findBlocksFuel : Nat → List Char → List Block
  | 0, _ => []
  | fuel + 1, s =>
    match matchAt s with
    | some (b, after) => b :: findBlocksFuel fuel after
    | none =>
      match s with
      | [] => []
      | _ :: rest => findBlocksFuel fuel rest

/-- All fenced code blocks of a response text, in order of appearance
(`re.finditer` over the pattern of `llmpc_v2.py` line 134). -/
def findBlocks (s : List Char) : List Block := findBlocksFuel s.length s

/-- The workspace directory `./files`: an association list from filename to
file content. -/
abbrev Workspace := List (List Char × List Char)

/-- Look up a file's content by name. -/
def lookupFile : Workspace → List Char → Option (List Char)
  | [], _ => none
  | (g, v) :: rest, f => if g = f then some v else lookupFile rest f

/-- Create-or-overwrite a file (Python `open(filepath, 'w')` then `write`):
replace the content if the name exists, otherwise add the file. -/
def writeFile : Workspace → List Char → List Char → Workspace
  | [], f, v => [(f, v)]
  | (g, w) :: rest, f, v =>
    if g = f then (f, v) :: rest else (g, w) :: writeFile rest f v

/-- Apply one fenced-block invocation: whole-file write of the stripped body
(`llmpc_v2.py` lines 136-142). -/
def applyBlock (ws : Workspace) (b : Block) : Workspace :=
  writeFile ws b.fname (stripPy b.code)

/-- Apply a list of block invocations in order. -/
def executeBlocks (ws : Workspace) (blocks : List Block) : Workspace :=
  blocks.foldl applyBlock ws

/-- File-writing effect of `LLMPC.execute` in v2 on a raw response text:
parse the fenced blocks and apply each in order. -/
def executeContent (ws : Workspace) (content : List Char) : Workspace :=
  executeBlocks ws (findBlocks content)

/-- Step of Python `str.split(sep)` for a nonempty separator: scan left to
right, cutting at each non-overlapping occurrence of `sep`.  `acc` holds the
current piece reversed.  Each step consumes at least one character, so fuel
equal to the length of the text is always sufficient. -/
def splitGo (sep : List Char) : Nat → List Char → List Char → List (List Char)
  | _, acc, [] => [acc.reverse]
  | 0, acc, s => [acc.reverse ++ s]
  | fuel + 1, acc, s@(c :: rest) =>
    if startsWithL sep s then acc.reverse :: splitGo sep fuel [] (s.drop sep.length)
    else splitGo sep fuel (c :: acc) rest

/-- Python `s.split(sep)` for a nonempty separator. -/
def splitOnSub (sep s : List Char) : List (List Char) := splitGo sep s.length [] s

/-- Whether `sep` occurs as a contiguous segment of `s` (Python `sep in s`). -/
def occursSub (sep : List Char) : List Char → Bool
  | [] => startsWithL sep []
  | s@(_ :: rest) => startsWithL sep s || occursSub sep rest

/-- Python `line.split(sep, 1)` for a single-character separator: a two-piece
split at the first occurrence, or the whole line if the separator is absent. -/
def splitOnce (sep : Char) : List Char → List (List Char)
  | [] => [[]]
  | c :: rest =>
    if c == sep then [[], rest]
    else
      match splitOnce sep rest with
      | a :: t => (c :: a) :: t
      | [] => [[c]]

/-- Python `s.split(sep)` for a single-character separator (no limit). -/
def splitAllChar (sep : Char) : List Char → List (List Char)
  | [] => [[]]
  | c :: rest =>
    if c == sep then [] :: splitAllChar sep rest
    else
      match splitAllChar sep rest with
      | a :: t => (c :: a) :: t
      | [] => [[c]]

/-- The literal plan marker searched for in the planner response. -/
def planMarker : List Char := chars "PLAN:"

/-- First character of a line, as a list-head test. -/
def headDigit : List Char → Bool
  | [] => false
  | c :: _ => c.isDigit

/-- The line filter of `LLMPC.plan` (`llmpc.py` line 106, `llmpc_v2.py` line
110): the stripped line is truthy and the line's first character is a digit.
The short-circuit of the Python conjunction is respected: a line passing the
first test is nonempty, so indexing its first character cannot fail. -/
def guardLine (line : List Char) : Bool :=
  !(stripPy line).isEmpty && headDigit line

/-- Step text of one accepted line: `line.split(".", 1)[1].strip()`.  `none`
models the IndexError raised when the line contains no period. -/
def stepOfLine (line : List Char) : Option (List Char) :=
  match splitOnce '.' line with
  | [_, r] => some (stripPy r)
  | _ => none

/-- The accumulation loop over the section's lines; `none` models an
exception propagating out of the loop. -/
def stepsOfLines : List (List Char) → Option (List (List Char))
  | [] => some []
  | line :: rest =>
    if guardLine line then
      match stepOfLine line with
      | some st => (stepsOfLines rest).map (fun l => st :: l)
      | none => none
    else stepsOfLines rest

/-- Plan extraction of `LLMPC.plan` (identical in `llmpc.py` lines 102-108
and `llmpc_v2.py` lines 105-112): `content.split("PLAN:")[1].strip()` is the
section (the text between the first marker and the next occurrence, if any;
`none` models the IndexError when the marker is absent), split into lines;
each line passing `guardLine` contributes the text after its first period,
stripped. -/
def extractSteps (content : List Char) : Option (List (List Char)) :=
  match splitOnSub planMarker content with
  | _ :: seg :: _ => stepsOfLines (splitAllChar '\n' (stripPy seg))
  | _ => none

/-- Whether a line contains a period. -/
def hasDot (line : List Char) : Bool := line.any (fun c => c == '.')

/-- Text after the first period of a line. -/
def afterFirstDot (line : List Char) : List Char :=
  (line.dropWhile (fun c => c != '.')).drop 1

/-- Declarative description of one step: the text after the line's first
period, stripped of surrounding whitespace. -/
def stepTextOf (line : List Char) : List Char := stripPy (afterFirstDot line)

/-- Text after the first occurrence of `marker`, if the marker occurs.
Used only to state the claim that step extraction reads the text after the
marker; the source instead takes the segment before the next occurrence. -/
def textAfterMarker (marker s : List Char) : Option (List Char) :=
  (findSubIdx marker s).map (fun i => s.drop (i + marker.length))

/-- Line acceptance as worded by the claim: the first character is a digit
followed by a period.  Stated from the claim's words, for comparison with the
source's `guardLine`. -/
def claimStepLine (line : List Char) : Bool :=
  match line with
  | c :: d :: _ => c.isDigit && d == '.'
  | _ => false

/-- Step extraction as worded by the claim (not as the source computes it):
all steps are taken from the text after the marker, and exactly the lines
whose first character is a digit followed by a period contribute. -/
def claimStepsAfterMarker (content : List Char) : Option (List (List Char)) :=
  (textAfterMarker planMarker content).map (fun r =>
    ((splitAllChar '\n' r).filter claimStepLine).map stepTextOf)

/-- Concatenate pieces with a separator between consecutive elements
(Python `sep.join(pieces)`). -/
def joinSep (sep : List Char) : List (List Char) → List Char
  | [] => []
  | [x] => x
  | x :: y :: xs => x ++ sep ++ joinSep sep (y :: xs)

/-- Mutable state of the v2 `LLMPC` object together with the `./files`
directory it reads and writes.  The LLM client and api key play no role in
the modelled behaviour. -/
structure AgentState where
  goal : List Char
  actions : List (List Char)
  context : List Char
  workspace : Workspace
deriving DecidableEq

/-- Context text built by `update_context` in v2 (`llmpc_v2.py` lines
64-79): for each file a header with its name, a newline and the file's
content (reading the lines and joining them reproduces the content); the
per-file texts are joined with a blank line. -/
def buildContextV2 (ws : Workspace) : List Char :=
  joinSep (chars "\n\n")
    (ws.map (fun p => chars "File: " ++ p.1 ++ chars "\n" ++ p.2))

/-- The v2 `update_context`: recompute the stored context from the current
workspace.  A missing `./files` directory is created (`os.makedirs`), which
corresponds to an empty workspace and hence an empty context. -/
def update_context (st : AgentState) : AgentState :=
  { st with context := buildContextV2 st.workspace }

/-- The v2 `LLMPC.plan` given the raw text of the LLM response: its state
effect is the context refresh performed while building the prompt, and its
result is the extracted step list (`none` models the exception propagating
when extraction fails). -/
def planOnResponse (st : AgentState) (responseContent : List Char) :
    AgentState × Option (List (List Char)) :=
  (update_context st, extractSteps responseContent)

/-- The v2 `LLMPC.execute` (`llmpc_v2.py` lines 114-144) given the plan and
the raw text of the LLM response: refresh the context while building the
prompt, write every parsed fenced block to the workspace in order, extend
the action history with the plan, and return the Python return value — the
function has no return statement, so it returns `None`, modelled as the
`none` in the pair's second component. -/
def execute (st : AgentState) (pl : List (List Char)) (content : List Char) :
    AgentState × Option (List Block) :=
  let st1 := update_context st
  ({ st1 with
      workspace := executeContent st1.workspace content
      actions := st1.actions ++ pl },
   none)

/-- How one iteration of the orchestration loop can fail: the planning LLM
call raises, plan extraction raises, or the executing LLM call raises. -/
inductive IterError
  | planUpstream
  | planParse
  | execUpstream
deriving DecidableEq

/-- One iteration of the loop in `main` (`llmpc_v2.py` lines 156-170): one
planning call, then one executing call on the returned plan.  The LLM
responses are supplied from outside as `Option (List Char)`; `none` stands
for the call itself raising.  Any raised exception aborts the iteration (and
in Python the whole program, since nothing catches it). -/
def runIter (st : AgentState) (planResp execResp : Option (List Char)) :
    Except IterError (AgentState × List (List Char)) :=
  match planResp with
  | none => .error .planUpstream
  | some pc =>
    match planOnResponse st pc with
    | (_, none) => .error .planParse
    | (st1, some steps) =>
      match execResp with
      | none => .error .execUpstream
      | some ec => .ok ((execute st1 steps ec).1, steps)

/-- The orchestration loop from iteration index `i`, for `n` further
iterations, drawing the pair (planning response, executing response) of
iteration `j` from `oracle j`.  A failed iteration stops the loop and
reports its index and error. -/
def runLoop (oracle : Nat → Option (List Char) × Option (List Char)) :
    Nat → Nat → AgentState → Except (Nat × IterError) AgentState
  | _, 0, st => .ok st
  | i, n + 1, st =>
    match runIter st (oracle i).1 (oracle i).2 with
    | .error e => .error (i, e)
    | .ok (st2, _) => runLoop oracle (i + 1) n st2

/-- The iteration count hardcoded in `main` (`range(3)`). -/
def mainIterations : Nat := 3

/-- The loop of `main`: three iterations starting from index 0. -/
def runMain (oracle : Nat → Option (List Char) × Option (List Char))
    (st : AgentState) : Except (Nat × IterError) AgentState :=
  runLoop oracle 0 mainIterations st

/-- Whether the responses of one iteration let it succeed: both LLM calls
return, and plan extraction succeeds on the planning response.  Success of
an iteration depends only on its responses, not on the agent state. -/
def iterOk : Option (List Char) × Option (List Char) → Bool
  | (some pc, some _) => (extractSteps pc).isSome
  | _ => false

/-- Mutable state of the v1 `LLMPC` object (`llmpc.py`).  The v1 workspace
is read through the filesystem only, so no workspace field is kept here; the
directory listing is passed to `update_context_v1` explicitly. -/
structure AgentStateV1 where
  goal : List Char
  actions : List (List Char)
  context : List Char
deriving DecidableEq

/-- Take one line of text including its terminating newline, if present
(one element of Python `readlines`). -/
def takeLineIncl : List Char → List Char
  | [] => []
  | c :: rest => if c == '\n' then ['\n'] else c :: takeLineIncl rest

/-- Python `f.readlines()` on a file's content: split after each newline,
keeping the newline; no empty final element.  Each step consumes at least
one character, so fuel equal to the length is always sufficient. -/
def readlinesFuel : Nat → List Char → List (List Char)
  | 0, _ => []
  | _ + 1, [] => []
  | fuel + 1, s =>
    let line := takeLineIncl s
    line :: readlinesFuel fuel (s.drop line.length)

/-- Python `f.readlines()` on a file's content. -/
def readlinesL (content : List Char) : List (List Char) :=
  readlinesFuel content.length content

/-- Numbered lines of v1's context (`llmpc.py` line 75): each line of the
file prefixed with its 0-based index and a space, with trailing whitespace
removed. -/
def numberLines (lines : List (List Char)) : List (List Char) :=
  lines.enum.map (fun p => chars (Nat.repr p.1) ++ chars " " ++ rstripPy p.2)

/-- Context text built by v1's `update_context` when the directory exists
(`llmpc.py` lines 70-78). -/
def buildContextV1 (files : Workspace) : List Char :=
  joinSep (chars "\n\n")
    (files.map (fun p =>
      chars "File: " ++ p.1 ++ chars "\n"
        ++ joinSep (chars "\n") (numberLines (readlinesL p.2))))

/-- The v1 `update_context` (`llmpc.py` lines 63-78): when the `./files`
directory does not exist (`filesDir = none`) the method returns early,
leaving the whole state — in particular the stored context — unchanged;
otherwise the context is rebuilt from the directory's files. -/
def update_context_v1 (st : AgentStateV1) (filesDir : Option Workspace) :
    AgentStateV1 :=
  match filesDir with
  | none => st
  | some files => { st with context := buildContextV1 files }

/-- Fixed pieces of the v1 system prompt template around the three
interpolated fields. -/
def sysTplA : List Char :=
  chars "\nYou are an intelligent software engineering AI assistant.\nYou write clear, concise and modular maintable code.\n\nYou have been asked to complete the following project:\n"

/-- Template text between the goal and the action list. -/
def sysTplB : List Char := chars "\n\nThe previous actions you took are:\n"

/-- Template text between the action list and the context. -/
def sysTplC : List Char := chars "\n\nThe relevant project state context is:\n"

/-- Template text after the context. -/
def sysTplD : List Char := chars "\n\n"

/-- The action-history block of the prompt: one dash-prefixed line per
recorded action, joined with newlines. -/
def actionsJoined (acts : List (List Char)) : List Char :=
  joinSep (chars "\n") (acts.map (fun a => chars "- " ++ a))

/-- The v1 system prompt assembled from the current state
(`template.format` in `llmpc.py` lines 82-87). -/
def systemPromptV1 (st : AgentStateV1) : List Char :=
  sysTplA ++ st.goal ++ sysTplB ++ actionsJoined st.actions
    ++ sysTplC ++ st.context ++ sysTplD

/-- The v1 `get_system_prompt` (`llmpc.py` lines 80-87): refresh the context
first, then interpolate the template with the refreshed state. -/
def get_system_prompt_v1 (st : AgentStateV1) (filesDir : Option Workspace) :
    AgentStateV1 × List Char :=
  let st1 := update_context_v1 st filesDir
  (st1, systemPromptV1 st1)

/-- Errors of the spec's File Workspace operations. -/
inductive WsError
  | NotFound
deriving DecidableEq

/-- A workspace keyed by filename and holding ordered lines of text, as in
the spec's data model for the tool verbs. -/
abbrev LinesWorkspace := List (List Char × List (List Char))

/-- Look up a file's lines by name. -/
def lookupLines : LinesWorkspace → List Char → Option (List (List Char))
  | [], _ => none
  | (g, v) :: rest, f => if g = f then some v else lookupLines rest f

/-- Replace a file's lines, or add the file if absent. -/
def setLines : LinesWorkspace → List Char → List (List Char) → LinesWorkspace
  | [], f, v => [(f, v)]
  | (g, w) :: rest, f, v =>
    if g = f then (f, v) :: rest else (g, w) :: setLines rest f v

/-- Modelled from the spec: the `tools` module (`CodeGenerator`) that
implements the four tool verbs is not under `src/`; `read_file` follows spec
section 4.1 — return the file's ordered line sequence, failing with NotFound
when the file is absent. -/
def read_file (ws : LinesWorkspace) (name : List Char) :
    Except WsError (List (List Char)) :=
  match lookupLines ws name with
  | some ls => .ok ls
  | none => .error .NotFound

/-- Modelled from the spec: the lines derived from a content string — the
content split at newlines. -/
def lines_of (content : List Char) : List (List Char) :=
  splitAllChar '\n' content

/-- Modelled from the spec: the `tools` module is not under `src/`;
`modify_range` follows spec section 4.1 — replace the inclusive line range
from `s` to `e` with the lines derived from the content, failing with
NotFound when the file is absent.  Bounds are not validated, as the spec
notes the source never checks them. -/
def modify_range (ws : LinesWorkspace) (name : List Char) (s e : Nat)
    (content : List Char) : Except WsError LinesWorkspace :=
  match lookupLines ws name with
  | none => .error .NotFound
  | some ls =>
    .ok (setLines ws name (ls.take s ++ lines_of content ++ ls.drop (e + 1)))

lemma lookup_writeFile_self (ws : Workspace) (f v : List Char) :
    lookupFile (writeFile ws f v) f = some v := by
  induction ws with
  | nil => simp [writeFile, lookupFile]
  | cons p rest ih =>
    obtain ⟨g, w⟩ := p
    by_cases h : g = f
    · simp [writeFile, lookupFile, h]
    · simp [writeFile, lookupFile, h, ih]

lemma lookup_writeFile_other (ws : Workspace) (f g v : List Char)
    (h : g ≠ f) : lookupFile (writeFile ws g v) f = lookupFile ws f := by
  induction ws with
  | nil => simp [writeFile, lookupFile, h]
  | cons p rest ih =>
    obtain ⟨k, w⟩ := p
    by_cases hk : k = g
    · subst hk
      simp [writeFile, lookupFile, h]
    · by_cases hf : k = f
      · simp [writeFile, lookupFile, hk, hf, Ne.symm h]
      · simp [writeFile, lookupFile, hk, hf, ih]

lemma writeFile_idem (ws : Workspace) (f v : List Char) :
    writeFile (writeFile ws f v) f v = writeFile ws f v := by
  induction ws with
  | nil => simp [writeFile]
  | cons p rest ih =>
    obtain ⟨g, w⟩ := p
    by_cases h : g = f
    · simp [writeFile, h]
    · simp [writeFile, h, ih]

lemma lookup_executeBlocks_not_mem (l : List Block) (f : List Char) :
    ∀ ws : Workspace, (∀ b ∈ l, b.fname ≠ f) →
      lookupFile (executeBlocks ws l) f = lookupFile ws f := by
  induction l with
  | nil => intro ws _; rfl
  | cons b rest ih =>
    intro ws h
    have hb : b.fname ≠ f := h b (List.mem_cons_self b rest)
    have hrest : ∀ b2 ∈ rest, b2.fname ≠ f :=
      fun b2 hm => h b2 (List.mem_cons_of_mem b hm)
    calc lookupFile (executeBlocks ws (b :: rest)) f
        = lookupFile (executeBlocks (applyBlock ws b) rest) f := rfl
      _ = lookupFile (applyBlock ws b) f := ih (applyBlock ws b) hrest
      _ = lookupFile ws f := lookup_writeFile_other ws f b.fname (stripPy b.code) hb

/-- C1, amended: for every LLM response text and every fenced code block the
response contains, provided no later block targets the same filename,
executing the response leaves that file holding exactly the block's body
with leading and trailing whitespace trimmed — whatever the file held
before, and whether or not it existed. -/
theorem C1_whole_file_write (ws : Workspace) (t : List Char)
    (pre post : List Block) (b : Block)
    (hparse : findBlocks t = pre ++ b :: post)
    (hlast : ∀ b2 ∈ post, b2.fname ≠ b.fname) :
    lookupFile (executeContent ws t) b.fname = some (stripPy b.code) := by
  have h1 : executeContent ws t
      = executeBlocks (applyBlock (executeBlocks ws pre) b) post := by
    unfold executeContent executeBlocks
    rw [hparse, List.foldl_append]
    rfl
  rw [h1, lookup_executeBlocks_not_mem post b.fname _ hlast]
  exact lookup_writeFile_self _ _ _

/-- C1 witness: a concrete response with one block for `a.txt` overwrites
the existing `a.txt` with the trimmed body. -/
theorem C1_whole_file_write_witness :
    lookupFile
      (executeContent [(chars "a.txt", chars "old")]
        (chars "```txt a.txt\nnew\n```"))
      (chars "a.txt") = some (chars "new") := by
  have h := C1_whole_file_write [(chars "a.txt", chars "old")]
    (chars "```txt a.txt\nnew\n```") [] []
    ⟨chars "txt", chars "a.txt", chars "new\n"⟩
    (by decide) (by intro b2 hm; cases hm)
  simpa using h

/-- C1 counterexample: the claim as stated says the file holds the body with
only trailing whitespace trimmed; on a body with leading whitespace the code
(`code.strip()`) also removes the leading whitespace, so the stored content
differs from the trailing-trimmed body. -/
theorem C1_counterexample :
    findBlocks (chars "```txt a.txt\n  x\n```")
      = [⟨chars "txt", chars "a.txt", chars "  x\n"⟩] ∧
    lookupFile (executeContent [] (chars "```txt a.txt\n  x\n```"))
      (chars "a.txt") = some (chars "x") ∧
    rstripPy (chars "  x\n") = chars "  x" ∧
    some (chars "x") ≠ some (rstripPy (chars "  x\n")) := by
  refine ⟨by decide, by decide, by decide, by decide⟩

/-- C5: applying the same whole-file fenced-block invocation twice yields
the same workspace as applying it once. -/
theorem C5_whole_file_idempotent (ws : Workspace) (b : Block) :
    applyBlock (applyBlock ws b) b = applyBlock ws b :=
  writeFile_idem ws b.fname (stripPy b.code)

lemma splitOnce_spec (line : List Char) :
    (hasDot line = false → splitOnce '.' line = [line]) ∧
    (hasDot line = true →
      splitOnce '.' line
        = [line.takeWhile (fun c => c != '.'), afterFirstDot line]) := by
  induction line with
  | nil =>
    refine ⟨fun _ => rfl, fun h => ?_⟩
    simp [hasDot] at h
  | cons c rest ih =>
    by_cases hc : c = '.'
    · subst hc
      refine ⟨fun h => ?_, fun _ => ?_⟩
      · simp [hasDot] at h
      · simp [splitOnce, afterFirstDot]
    · have hcb : (c == '.') = false := by simp [hc]
      have hdcons : hasDot (c :: rest) = hasDot rest := by
        simp [hasDot, hcb]
      refine ⟨fun h => ?_, fun h => ?_⟩
      · rw [hdcons] at h
        simp [splitOnce, hcb, ih.1 h]
      · rw [hdcons] at h
        simp [splitOnce, hcb, ih.2 h, afterFirstDot, hc, List.takeWhile_cons,
          List.dropWhile_cons]

lemma stepOfLine_eq (line : List Char) :
    stepOfLine line = if hasDot line then some (stepTextOf line) else none := by
  cases h : hasDot line
  · rw [if_neg (by simp)]
    unfold stepOfLine
    rw [(splitOnce_spec line).1 h]
  · rw [if_pos rfl]
    unfold stepOfLine
    rw [(splitOnce_spec line).2 h]
    rfl

lemma stepsOfLines_eq (lines : List (List Char))
    (h : ∀ l ∈ lines, guardLine l = true → hasDot l = true) :
    stepsOfLines lines = some ((lines.filter guardLine).map stepTextOf) := by
  induction lines with
  | nil => rfl
  | cons line rest ih =>
    have hrest : ∀ l ∈ rest, guardLine l = true → hasDot l = true :=
      fun l hm => h l (List.mem_cons_of_mem line hm)
    cases hg : guardLine line
    · simp [stepsOfLines, hg, List.filter_cons, ih hrest]
    · have hd : hasDot line = true := h line (List.mem_cons_self line rest) hg
      simp [stepsOfLines, hg, stepOfLine_eq, hd, List.filter_cons,
        ih hrest]

lemma splitGo_no_occur (sep : List Char) :
    ∀ (s : List Char) (fuel : Nat) (acc : List Char),
      occursSub sep s = false → splitGo sep fuel acc s = [acc.reverse ++ s] := by
  intro s
  induction s with
  | nil => intro fuel acc _; simp [splitGo]
  | cons c rest ih =>
    intro fuel acc h
    simp only [occursSub, Bool.or_eq_false_iff] at h
    cases fuel with
    | zero => simp [splitGo]
    | succ fuel =>
      simp only [splitGo, h.1, if_false]
      rw [ih fuel (c :: acc) h.2]
      simp

/-- C3: when the response text does not contain the marker, plan extraction
fails with a propagated error (modelled as `none`) rather than returning an
empty or partial step list.  In the source the raised exception is the
IndexError from indexing the single-element split result; the spec's error
taxonomy files this failure under ParseError. -/
theorem C3_missing_marker (content : List Char)
    (h : occursSub planMarker content = false) :
    extractSteps content = none := by
  unfold extractSteps splitOnSub
  rw [splitGo_no_occur planMarker content content.length [] h]

/-- C3 witness: a concrete marker-free response makes plan extraction fail. -/
theorem C3_missing_marker_witness :
    occursSub planMarker (chars "Here are some steps") = false ∧
    extractSteps (chars "Here are some steps") = none :=
  ⟨by decide, C3_missing_marker (chars "Here are some steps") (by decide)⟩

/-- C9: the step extraction is not total — a response containing the marker
followed by a line whose first character is a digit but which contains no
period makes `plan` raise (the IndexError from `line.split(".", 1)[1]`),
modelled as `none`, instead of returning a step list. -/
theorem C9_digit_line_without_period :
    occursSub planMarker (chars "PLAN:\n1 do something") = true ∧
    extractSteps (chars "PLAN:\n1 do something") = none := by
  refine ⟨by decide, by decide⟩

/-- C2 counterexample: on a response whose text after the marker holds the
lines `12. twelve` and (after a second marker) `2. b`, the claim's reading
(text after the marker; lines whose first character is a digit followed by a
period) yields the single step `b`, while the code takes only the segment
between the first and second markers and accepts any line whose first
character is a digit, yielding the single step `twelve`. -/
theorem C2_counterexample :
    extractSteps (chars "PLAN:\n12. twelve\nPLAN:\n2. b")
      = some [chars "twelve"] ∧
    claimStepsAfterMarker (chars "PLAN:\n12. twelve\nPLAN:\n2. b")
      = some [chars "b"] ∧
    extractSteps (chars "PLAN:\n12. twelve\nPLAN:\n2. b")
      ≠ claimStepsAfterMarker (chars "PLAN:\n12. twelve\nPLAN:\n2. b") := by
  refine ⟨by decide, by decide, by decide⟩

/-- C2, amended: the section is the text between the first marker and the
next occurrence of the marker (or the end), stripped; exactly its nonblank
lines whose first character is a digit contribute a step, each step being
the text after the line's first period, trimmed, in line order — provided
every contributing line contains a period (otherwise extraction raises, see
the C9 theorem). -/
theorem C2_plan_extraction (content seg : List Char)
    (piece0 : List Char) (restPieces : List (List Char))
    (hsplit : splitOnSub planMarker content = piece0 :: seg :: restPieces)
    (hdots : ∀ l ∈ splitAllChar '\n' (stripPy seg),
      guardLine l = true → hasDot l = true) :
    extractSteps content
      = some (((splitAllChar '\n' (stripPy seg)).filter guardLine).map
          stepTextOf) := by
  unfold extractSteps
  rw [hsplit]
  exact stepsOfLines_eq _ hdots

/-- C2 witness: a concrete two-step plan response. -/
theorem C2_plan_extraction_witness :
    extractSteps (chars "PLAN:\n1. alpha\n2. beta")
      = some (((splitAllChar '\n'
          (stripPy (chars "\n1. alpha\n2. beta"))).filter guardLine).map
          stepTextOf) :=
  C2_plan_extraction (chars "PLAN:\n1. alpha\n2. beta")
    (chars "\n1. alpha\n2. beta") (chars "") []
    (by decide) (by decide)

lemma lookupLines_setLines_self (ws : LinesWorkspace) (f : List Char)
    (v : List (List Char)) : lookupLines (setLines ws f v) f = some v := by
  induction ws with
  | nil => simp [setLines, lookupLines]
  | cons p rest ih =>
    obtain ⟨g, w⟩ := p
    by_cases h : g = f
    · simp [setLines, lookupLines, h]
    · simp [setLines, lookupLines, h, ih]

/-- C4: on an existing file with line sequence `ls` and bounds with `s` at
most `e` and `e` within the file, `modify_range` succeeds and a subsequent
`read_file` returns exactly the lines before `s`, then the lines of the new
content, then the lines after `e`; on an absent file `modify_range` fails
with NotFound. -/
theorem C4_modify_range (ws : LinesWorkspace) (name : List Char) (s e : Nat)
    (content : List Char) :
    (∀ ls, lookupLines ws name = some ls → s ≤ e → e < ls.length →
      modify_range ws name s e content
          = .ok (setLines ws name
              (ls.take s ++ lines_of content ++ ls.drop (e + 1))) ∧
        read_file
            (setLines ws name
              (ls.take s ++ lines_of content ++ ls.drop (e + 1))) name
          = .ok (ls.take s ++ lines_of content ++ ls.drop (e + 1))) ∧
    (lookupLines ws name = none →
      modify_range ws name s e content = .error .NotFound) := by
  constructor
  · intro ls hls _ _
    constructor
    · unfold modify_range
      rw [hls]
    · unfold read_file
      rw [lookupLines_setLines_self]
  · intro h
    unfold modify_range
    rw [h]

/-- C4 witness: replacing line 1 of a three-line file with a two-line
content. -/
theorem C4_modify_range_witness :
    modify_range [(chars "a.txt", [chars "l0", chars "l1", chars "l2"])]
        (chars "a.txt") 1 1 (chars "x\ny")
      = .ok (setLines [(chars "a.txt", [chars "l0", chars "l1", chars "l2"])]
          (chars "a.txt")
          ([chars "l0", chars "l1", chars "l2"].take 1
            ++ lines_of (chars "x\ny")
            ++ [chars "l0", chars "l1", chars "l2"].drop 2)) ∧
    read_file (setLines [(chars "a.txt", [chars "l0", chars "l1", chars "l2"])]
          (chars "a.txt")
          ([chars "l0", chars "l1", chars "l2"].take 1
            ++ lines_of (chars "x\ny")
            ++ [chars "l0", chars "l1", chars "l2"].drop 2)) (chars "a.txt")
      = .ok ([chars "l0", chars "l1", chars "l2"].take 1
            ++ lines_of (chars "x\ny")
            ++ [chars "l0", chars "l1", chars "l2"].drop 2) :=
  (C4_modify_range [(chars "a.txt", [chars "l0", chars "l1", chars "l2"])]
      (chars "a.txt") 1 1 (chars "x\ny")).1
    [chars "l0", chars "l1", chars "l2"] (by decide) (by decide) (by decide)

/-- C6: the action history is append-only — `execute` extends it with
exactly the plan's steps in plan order, the context refresh leaves it
untouched, and a successful loop iteration grows it exactly once, by its
plan's steps. -/
theorem C6_history_append_only :
    (∀ st pl content, ((execute st pl content).1).actions = st.actions ++ pl)
    ∧ (∀ st, (update_context st).actions = st.actions)
    ∧ (∀ st planResp execResp st2 steps,
        runIter st planResp execResp = .ok (st2, steps) →
        st2.actions = st.actions ++ steps) := by
  refine ⟨fun _ _ _ => rfl, fun _ => rfl, ?_⟩
  intro st planResp execResp st2 steps h
  cases planResp with
  | none => simp [runIter] at h
  | some pc =>
    cases hx : extractSteps pc with
    | none => simp [runIter, planOnResponse, hx] at h
    | some steps2 =>
      cases execResp with
      | none => simp [runIter, planOnResponse, hx] at h
      | some ec =>
        simp only [runIter, planOnResponse, hx, Except.ok.injEq,
          Prod.mk.injEq] at h
        rw [← h.1, ← h.2]
        rfl

/-- C6 witness: a concrete successful iteration appends the planned step. -/
theorem C6_history_append_only_witness :
    (⟨chars "g", [chars "first", chars "alpha"], [], []⟩ : AgentState).actions
      = (⟨chars "g", [chars "first"], [], []⟩ : AgentState).actions
          ++ [chars "alpha"] :=
  C6_history_append_only.2.2 ⟨chars "g", [chars "first"], [], []⟩
    (some (chars "PLAN:\n1. alpha")) (some (chars "resp"))
    ⟨chars "g", [chars "first", chars "alpha"], [], []⟩ [chars "alpha"] rfl

/-- C8 counterexample: the claim says `execute` returns the list of applied
invocations; on a response with one applied fenced-block invocation the
function's return value (Python `None`, from the absent return statement) is
not that singleton list. -/
theorem C8_counterexample :
    findBlocks (chars "```txt a.txt\nhello\n```")
      = [⟨chars "txt", chars "a.txt", chars "hello\n"⟩] ∧
    (execute ⟨chars "g8", [], [], []⟩ []
        (chars "```txt a.txt\nhello\n```")).2 = none ∧
    (execute ⟨chars "g8", [], [], []⟩ []
        (chars "```txt a.txt\nhello\n```")).2
      ≠ some (findBlocks (chars "```txt a.txt\nhello\n```")) := by
  refine ⟨by decide, by decide, by decide⟩

/-- C8, amended: `execute` applies the parsed fenced-block invocations to
the workspace in the order parsed, but returns `None`; the applied list is
not returned to the caller. -/
theorem C8_execute_return (st : AgentState) (pl : List (List Char))
    (content : List Char) :
    (execute st pl content).2 = none ∧
    ((execute st pl content).1).workspace
      = executeBlocks st.workspace (findBlocks content) :=
  ⟨rfl, rfl⟩

/-- C10: in the tagged-JSON variant, when the files directory does not
exist, `update_context` returns early leaving the stored context (and the
whole state) unchanged, so the next prompt is assembled from the previously
computed context; when the directory exists the context is rebuilt. -/
theorem C10_missing_dir_keeps_context (st : AgentStateV1) :
    update_context_v1 st none = st ∧
    (get_system_prompt_v1 st none).2 = systemPromptV1 st ∧
    (∀ files, (update_context_v1 st (some files)).context
      = buildContextV1 files) :=
  ⟨rfl, rfl, fun _ => rfl⟩

lemma runIter_ok_of (r : Option (List Char) × Option (List Char))
    (st : AgentState) (h : iterOk r = true) :
    ∃ st2 steps, runIter st r.1 r.2 = .ok (st2, steps) := by
  obtain ⟨p, e⟩ := r
  cases p with
  | none => simp [iterOk] at h
  | some pc =>
    cases e with
    | none => simp [iterOk] at h
    | some ec =>
      simp only [iterOk] at h
      cases hx : extractSteps pc with
      | none =>
        rw [hx] at h
        simp at h
      | some steps =>
        exact ⟨(execute (update_context st) steps ec).1, steps,
          by simp [runIter, planOnResponse, hx]⟩

lemma runIter_err_of (r : Option (List Char) × Option (List Char))
    (st : AgentState) (h : iterOk r = false) :
    ∃ e, runIter st r.1 r.2 = .error e := by
  obtain ⟨p, e⟩ := r
  cases p with
  | none => exact ⟨.planUpstream, rfl⟩
  | some pc =>
    cases hx : extractSteps pc with
    | none => exact ⟨.planParse, by simp [runIter, planOnResponse, hx]⟩
    | some steps =>
      cases e with
      | none => exact ⟨.execUpstream, by simp [runIter, planOnResponse, hx]⟩
      | some ec => simp [iterOk, hx] at h

lemma runLoop_ok_all (oracle : Nat → Option (List Char) × Option (List Char)) :
    ∀ (n i : Nat) (st : AgentState),
      (∀ d, d < n → iterOk (oracle (i + d)) = true) →
      ∃ st2, runLoop oracle i n st = .ok st2 := by
  intro n
  induction n with
  | zero => exact fun i st _ => ⟨st, rfl⟩
  | succ n ih =>
    intro i st h
    have h0 : iterOk (oracle i) = true := by
      have := h 0 (Nat.succ_pos n)
      simpa using this
    obtain ⟨st2, steps, hr⟩ := runIter_ok_of (oracle i) st h0
    obtain ⟨st3, h3⟩ := ih (i + 1) st2 (fun d hd => by
      have hh := h (d + 1) (Nat.succ_lt_succ hd)
      have e : i + (d + 1) = i + 1 + d := by omega
      rwa [e] at hh)
    refine ⟨st3, ?_⟩
    simp only [runLoop]
    rw [hr]
    exact h3

lemma runLoop_err_first
    (oracle : Nat → Option (List Char) × Option (List Char)) :
    ∀ (n i k : Nat) (st : AgentState), k < n →
      (∀ d, d < k → iterOk (oracle (i + d)) = true) →
      iterOk (oracle (i + k)) = false →
      ∃ e, runLoop oracle i n st = .error (i + k, e) := by
  intro n
  induction n with
  | zero => intro i k st hk _ _; exact absurd hk (Nat.not_lt_zero k)
  | succ n ih =>
    intro i k st hk hpre hfail
    cases k with
    | zero =>
      obtain ⟨e, he⟩ := runIter_err_of (oracle i) st (by simpa using hfail)
      refine ⟨e, ?_⟩
      simp only [runLoop]
      rw [he]
      simp
    | succ k =>
      have h0 : iterOk (oracle i) = true := by
        have := hpre 0 (Nat.succ_pos k)
        simpa using this
      obtain ⟨st2, steps, hr⟩ := runIter_ok_of (oracle i) st h0
      obtain ⟨e, he⟩ := ih (i + 1) k st2 (Nat.lt_of_succ_lt_succ hk)
        (fun d hd => by
          have hh := hpre (d + 1) (Nat.succ_lt_succ hd)
          have eq1 : i + (d + 1) = i + 1 + d := by omega
          rwa [eq1] at hh)
        (by
          have eq2 : i + (k + 1) = i + 1 + k := by omega
          rwa [eq2] at hfail)
      refine ⟨e, ?_⟩
      simp only [runLoop]
      rw [hr]
      have eq3 : i + (k + 1) = i + 1 + k := by omega
      rw [eq3]
      exact he

lemma runLoop_congr
    (oracle oracle2 : Nat → Option (List Char) × Option (List Char)) :
    ∀ (n i : Nat) (st : AgentState),
      (∀ j, i ≤ j → j < i + n → oracle j = oracle2 j) →
      runLoop oracle i n st = runLoop oracle2 i n st := by
  intro n
  induction n with
  | zero => intro i st _; rfl
  | succ n ih =>
    intro i st h
    have h0 : oracle i = oracle2 i := h i (Nat.le_refl i) (by omega)
    simp only [runLoop]
    rw [h0]
    cases hr : runIter st (oracle2 i).1 (oracle2 i).2 with
    | error e => rfl
    | ok p =>
      obtain ⟨st2, steps⟩ := p
      exact ih (i + 1) st2 (fun j hj1 hj2 => h j (by omega) (by omega))

/-- C7: the loop runs the fixed caller-supplied number of iterations — it
succeeds when all its iterations' responses are good, consults only the
responses of iterations below that count, and `main` runs it with count 3;
each iteration is one planning call then one executing call (`runIter`
consults the executing response only after planning succeeds, by its
definition); and the first failing iteration stops the loop, which reports
that iteration's index and error, so no later iteration runs. -/
theorem C7_loop_structure
    (oracle oracle2 : Nat → Option (List Char) × Option (List Char))
    (n : Nat) (st : AgentState) :
    ((∀ d, d < n → iterOk (oracle d) = true) →
      ∃ st2, runLoop oracle 0 n st = .ok st2) ∧
    (∀ k, k < n → (∀ d, d < k → iterOk (oracle d) = true) →
      iterOk (oracle k) = false →
      ∃ e, runLoop oracle 0 n st = .error (k, e)) ∧
    ((∀ j, j < n → oracle j = oracle2 j) →
      runLoop oracle 0 n st = runLoop oracle2 0 n st) ∧
    runMain oracle st = runLoop oracle 0 3 st := by
  refine ⟨?_, ?_, ?_, rfl⟩
  · intro h
    exact runLoop_ok_all oracle n 0 st (fun d hd => by simpa using h d hd)
  · intro k hk hpre hfail
    have := runLoop_err_first oracle n 0 k st hk
      (fun d hd => by simpa using hpre d hd) (by simpa using hfail)
    simpa using this
  · intro h
    exact runLoop_congr oracle oracle2 n 0 st
      (fun j hj1 hj2 => h j (by omega))

/-- Response oracle for the C7 witness: iteration 0 succeeds, iteration 1's
planning call fails upstream. -/
def oracleC7 : Nat → Option (List Char) × Option (List Char) := fun i =>
  if i = 0 then (some (chars "PLAN:\n1. alpha"), some (chars "resp"))
  else (none, none)

/-- C7 witness: with a good first iteration and a failing second one, a
two-iteration loop stops with an error naming iteration 1. -/
theorem C7_loop_structure_witness :
    ∃ e, runLoop oracleC7 0 2 (⟨chars "g", [], [], []⟩ : AgentState)
      = .error (1, e) :=
  (C7_loop_structure oracleC7 oracleC7 2 ⟨chars "g", [], [], []⟩).2.1 1
    (by decide) (by decide) (by decide)
